import Mathlib

/-!
Verification of the `arise-predictions` batch prediction pipeline
(`src/perform_predict/predict.py` and `ui/tools/generate_files.py`).

The Python code is shallowly embedded: pandas DataFrames become a `Table`
structure (a list of column names plus row-major data), Python dicts built
from lists of single-key mappings become association lists with
last-write-wins insertion, raised exceptions become `Except PredictError`,
and the side-effecting parts of `_run_predictions` (archive extraction and
removal, per-target in-place DataFrame mutation) become an explicit event
trace and an explicit store of tables.
-/

namespace Arise

/-! ## Python dict built from key/value pairs (insertion order, last write wins)

Embeds the Python comprehensions in predict.py lines 73-74:
`{k: v for d in fixed_values_list for k, v in d.items()}`.  Inserting an
existing key updates the value in place (the key keeps its original
position); a new key is appended. -/

def dictInsert {α : Type} (d : List (String × α)) (k : String) (v : α) : List (String × α) :=
  if d.any (fun p => p.1 = k) then
    d.map (fun p => if p.1 = k then (k, v) else p)
  else d ++ [(k, v)]

def dictOfPairs {α : Type} (l : List (String × α)) : List (String × α) :=
  l.foldl (fun d p => dictInsert d p.1 p.2) []

def dictLookup {α : Type} (d : List (String × α)) (k : String) : Option α :=
  (d.find? (fun p => p.1 = k)).map (·.2)

def dictKeys {α : Type} (d : List (String × α)) : List String := d.map (·.1)

/-- Python `a | b` on dicts: keys of `a` first (values overridden by `b` on
conflict), then the new keys of `b` in order (predict.py line 82). -/
def dictUnion {α : Type} (a b : List (String × α)) : List (String × α) :=
  b.foldl (fun d p => dictInsert d p.1 p.2) a

/-! ## Tables (pandas DataFrames restricted to what predict.py touches) -/

structure Table (α : Type) where
  columns : List String
  rows : List (List α)
deriving DecidableEq, Repr

/-- Index of the first column with the given name (pandas column lookup). -/
def colIdx (cols : List String) (name : String) : Option Nat :=
  match cols with
  | [] => none
  | c :: cs => if c = name then some 0 else (colIdx cs name).map (· + 1)

/-- `df[name] = v` with a scalar `v`: broadcast to every row; a new column is
appended on the right (predict.py lines 91-92). -/
def setColumnScalar {α : Type} (t : Table α) (name : String) (v : α) : Table α :=
  match colIdx t.columns name with
  | some i => ⟨t.columns, t.rows.map (fun r => r.set i v)⟩
  | none => ⟨t.columns ++ [name], t.rows.map (fun r => r ++ [v])⟩

/-- `df[name] = vs` with one value per row (predict.py line 167). -/
def setColumnList {α : Type} (t : Table α) (name : String) (vs : List α) : Table α :=
  match colIdx t.columns name with
  | some i => ⟨t.columns, (t.rows.zip vs).map (fun rv => rv.1.set i rv.2)⟩
  | none => ⟨t.columns ++ [name], (t.rows.zip vs).map (fun rv => rv.1 ++ [rv.2])⟩

/-- The values of a named column, top to bottom. -/
def columnValues {α : Type} [Inhabited α] (t : Table α) (name : String) : List α :=
  match colIdx t.columns name with
  | some i => t.rows.map (fun r => r.getD i default)
  | none => []

/-- Every row has exactly one entry per column. -/
def wellFormed {α : Type} (t : Table α) : Prop :=
  ∀ r ∈ t.rows, r.length = t.columns.length

/-- The named column exists and holds `v` in every row. -/
def columnIsConst {α : Type} (t : Table α) (name : String) (v : α) : Prop :=
  ∃ i, colIdx t.columns name = some i ∧ ∀ r ∈ t.rows, r.get? i = some v

/-! ## Errors raised by predict.py -/

inductive PredictError where
  /-- Python `KeyError` (missing column). -/
  | keyError
  /-- The bare `raise Exception` for a configuration error (predict.py line 80). -/
  | configError
  /-- pandas `ValueError` (e.g. `idxmin` of an empty series). -/
  | valueError
  /-- `IndexError` (e.g. `.values[0]` of an empty selection). -/
  | indexError
deriving DecidableEq, Repr

/-! ## Input-space construction (`_create_input_space`, predict.py lines 45-105)

Historical data (`original_data`) is a DataFrame of integer columns, embedded
as an association list from column name to the column's values; `none`
models `original_data is None`. -/

/-- `original_data.empty`: no columns, or all columns have zero rows. -/
def dataEmpty (d : List (String × List Int)) : Bool := d.all (fun c => c.2.isEmpty)

/-- `series.min()` for a non-empty integer column (junk `0` seed is irrelevant
for non-empty columns because the head is folded in as well). -/
def colMin (c : List Int) : Int := c.foldl min (c.headD 0)

def colMax (c : List Int) : Int := c.foldl max (c.headD 0)

/-- Python `range(a, b)` over integers. -/
def intRange (a b : Int) : List Int :=
  (List.range (b - a).toNat).map (fun (i : Nat) => a + (i : Int))

/-- `_get_data_range_missing_values` (predict.py lines 108-110):
`[val for val in range(col.min() + 1, col.max()) if val not in col.tolist()]`. -/
def getDataRangeMissingValues (col : List Int) : List Int :=
  (intRange (colMin col + 1) (colMax col)).filter (fun v => decide (v ∉ col))

/-- The dict comprehension on predict.py line 75:
`{k: _get_data_range_missing_values(original_data, k) for k in interpolation_values_list}`.
A missing column raises `KeyError` inside `_get_data_range_missing_values`. -/
def interpDict (d : List (String × List Int)) (names : List String) :
    Except PredictError (List (String × List Int)) :=
  names.foldlM (fun acc k =>
    match dictLookup d k with
    | some col => Except.ok (dictInsert acc k (getDataRangeMissingValues col))
    | none => Except.error PredictError.keyError) []

structure InputConfig where
  fixed_values : List (String × Int)
  variable_values : List (String × List Int)
  interpolation_values : List String
deriving DecidableEq, Repr

/-- predict.py lines 75-76: interpolation values are only computed when
`original_data is not None and not original_data.empty`; otherwise `{}`. -/
def buildInterpolation (cfg : InputConfig) (original : Option (List (String × List Int))) :
    Except PredictError (List (String × List Int)) :=
  match original with
  | some d => if dataEmpty d then Except.ok [] else interpDict d cfg.interpolation_values
  | none => Except.ok []

/-- predict.py lines 74-82: flatten `variable_values`, compute the
interpolation dict, raise on a shared key, and form
`variable_dict = variable_values | interpolation_values`. -/
def buildVariableDict (cfg : InputConfig) (original : Option (List (String × List Int))) :
    Except PredictError (List (String × List Int)) :=
  match buildInterpolation cfg original with
  | Except.error e => Except.error e
  | Except.ok interp =>
    if (dictKeys (dictOfPairs cfg.variable_values)).any
        (fun k => (dictKeys interp).contains k) then
      Except.error PredictError.configError
    else
      Except.ok (dictUnion (dictOfPairs cfg.variable_values) interp)

/-- `itertools.product(*lists)`: all combinations, first list varying slowest. -/
def pyProduct {α : Type} : List (List α) → List (List α)
  | [] => [[]]
  | l :: ls => (l.map (fun x => (pyProduct ls).map (fun r => x :: r))).flatten

/-- `_create_input_space` (predict.py lines 45-105) for the
`feature_engineering=None` path (the feature-engineering branch delegates to
an external collaborator and is out of scope).  Returns the table also
written to `input_space.csv`. -/
def createInputSpace (cfg : InputConfig) (original : Option (List (String × List Int))) :
    Except PredictError (Table Int) := do
  let vd ← buildVariableDict cfg original
  let base : Table Int := ⟨dictKeys vd, pyProduct (vd.map (·.2))⟩
  pure ((dictOfPairs cfg.fixed_values).foldl (fun t kv => setColumnScalar t kv.1 kv.2) base)

/-! ## Ranking predictions (`_rank_predictions`, predict.py lines 240-263) -/

/-- pandas `Series.rank(method='average', ascending)` on a fully numeric
column (the documented default used by `_rank_predictions`): each value's
rank is the number of strictly better values plus the average of the ordinal
positions its tie-group occupies, i.e. `better + (ties + 1) / 2`. -/
def pandasRank (l : List ℚ) (ascending : Bool) : List ℚ :=
  l.map (fun x =>
    ((l.countP (fun y => if ascending then decide (y < x) else decide (x < y)) : ℚ)) +
      ((l.countP (fun y => decide (y = x)) : ℚ) + 1) / 2)

/-- `_rank_predictions` (predict.py lines 259-263): insert a column named
`rank_<target>` at position `len(data.columns)` (i.e. append it on the
right) holding the rank of the target column, ascending iff
`not greater_is_better`.  pandas `DataFrame.insert` raises `ValueError`
when a column of that name already exists, so this total embedding models
only the successful call: every theorem about it carries the hypothesis
that `rank_<target>` is not already a column of its argument. -/
def rankPredictions (data : Table ℚ) (target : String) (greater_is_better : Bool) : Table ℚ :=
  let ranks := pandasRank (columnValues data target) (!greater_is_better)
  { columns := data.columns ++ ["rank_" ++ target],
    rows := (data.rows.zip ranks).map (fun rv => rv.1 ++ [rv.2]) }

/-! ## Estimator resolution (`_get_highest_ranked_estimator`, predict.py lines 113-125)

The ranking CSV is embedded as a list of rows; reading it with
`pd.read_csv` gives the default integer index `0, 1, 2, ...`, so a row's
index label is its position in the file. -/

structure RankRow where
  target : String
  rank_mape : Int
  rank_nrmse : Int
  linear : Bool
  estimator : String
deriving DecidableEq, Repr

/-- `combined_rank` (predict.py lines 120-121). -/
def combinedRank (r : RankRow) : Int := r.rank_mape + r.rank_nrmse

/-- Attach index labels `i, i+1, ...` to a list of rows. -/
def enumerate {α : Type} (i : Nat) : List α → List (Nat × α)
  | [] => []
  | a :: as => (i, a) :: enumerate (i + 1) as

/-- `ranking_df.loc[ranking_df[target_col] == target_variable]`: the matching
rows, keeping their original index labels. -/
def filterTarget (ranking : List RankRow) (tv : String) : List (Nat × RankRow) :=
  (enumerate 0 ranking).filter (fun p => p.2.target = tv)

/-- The first labelled row attaining the minimal combined rank (ties keep the
earlier row, matching pandas `idxmin`). -/
def minByCombined (p : Nat × RankRow) (l : List (Nat × RankRow)) : Nat × RankRow :=
  l.foldl (fun best q => if combinedRank q.2 < combinedRank best.2 then q else best) p

/-- pandas `Series.idxmin`: the index label of the first row attaining the
minimal combined rank; raises `ValueError` on an empty selection. -/
def idxminCombined (l : List (Nat × RankRow)) : Option Nat :=
  match l with
  | [] => none
  | p :: rest => some (minByCombined p rest).1

/-- `_get_highest_ranked_estimator` (predict.py lines 113-125).
`best_row = ranking_df_var[idxmin:]` slices the filtered frame
positionally (a `DataFrame.__getitem__` integer slice is positional even
when index labels disagree with positions), and `.values[0]` takes its first
row, raising `IndexError` when the slice is empty.  The estimator filename
itself is produced by the external collaborator
`utils.get_estimator_file_name(estimator_type, estimator, target_variable)`
(not part of these sources), so the resolver is embedded as returning the
`(estimator_type, estimator)` pair handed to it, with
`estimator_type = "linear"` iff the selected row's linear flag is set. -/
def getHighestRankedEstimator (ranking : List RankRow) (tv : String) :
    Except PredictError (String × String) :=
  let fvar := filterTarget ranking tv
  match idxminCombined fvar with
  | none => Except.error PredictError.valueError
  | some lbl =>
    match (fvar.drop lbl).head? with
    | none => Except.error PredictError.indexError
    | some best =>
      Except.ok ((if best.2.linear then "linear" else "nonlinear"), best.2.estimator)

/-! ## Merge-step input selection (predict.py lines 184-197) -/

/-- Modelled from the spec: `utils/constants` is not among the sources; the
spec fixes a consolidated-prediction output file, whose name
`all-predictions.csv` is also read back verbatim by `ui/ui/predict_ui.py`. -/
def PRED_ALL_PREDICTIONS_FILE : String := "all-predictions.csv"

/-- Modelled from the spec: `utils/constants` is not among the sources; the
spec fixes a ground-truth output file, whose name
`predictions-with-ground-truth.csv` is also read back verbatim by
`ui/ui/predict_ui.py`. -/
def PRED_GROUND_TRUTH_FILE : String := "predictions-with-ground-truth.csv"

/-- `fnmatch` of a basename against the glob pattern `predictions-*.csv`
(predict.py lines 184-186): `*` matches any, possibly empty, string, so a
name matches iff it is `predictions-` ++ something ++ `.csv` — equivalently
it starts with the prefix, ends with the suffix, and is long enough for the
two not to overlap. -/
def matchesPredictionsGlob (name : String) : Bool :=
  "predictions-".data.isPrefixOf name.data && ".csv".data.isSuffixOf name.data &&
    decide ("predictions-".data.length + ".csv".data.length ≤ name.data.length)

/-- Python `needle in haystack` on strings. -/
def strContains (hay needle : String) : Bool := decide (needle.data <:+: hay.data)

/-- The files the merge step reads and inner-joins (predict.py lines
184-197): glob the output directory (modelled as the list of basenames it
contains) for `predictions-*.csv`, then skip every path containing one of
the two output filenames as a substring.  `os.path.join` is modelled for a
directory path without a trailing separator. -/
def mergeJoinInputs (outputPath : String) (dirFiles : List String) : List String :=
  (dirFiles.filter matchesPredictionsGlob).filter
    (fun f => !(strContains (outputPath ++ "/" ++ f) PRED_ALL_PREDICTIONS_FILE ||
                strContains (outputPath ++ "/" ++ f) PRED_GROUND_TRUTH_FILE))

/-! ## Side-effect skeleton of `_run_predictions` (predict.py lines 128-237)

The filesystem effects of `_run_predictions` are embedded as an event
trace: archive extraction (lines 142-145), the per-target loop body
(estimator load, line 163, and prediction-file write, lines 176-179), the
merge (lines 184-205), the ground-truth reconciliation (lines 209-233) and
the removal of the extracted folder (lines 235-237).  A raised exception
inside the loop body aborts the whole function, so the trace stops there. -/

inductive PredEvent where
  | extractArchive
  | loadEstimator (tv : String)
  | writePredictions (tv : String)
  | mergePredictions
  | reconcileGroundTruth
  | removeExtracted
deriving DecidableEq, Repr

/-- The event trace of `_run_predictions` together with whether it returned
normally.  `loopFail = some k` injects an exception while loading or
predicting with the `k`-th target's estimator (the failure modes the spec
mentions: a bad estimator file aborts the run); `none` means every step
succeeds. -/
def runPredictionsTrace (isZip : Bool) (targets : List String) (loopFail : Option Nat) :
    List PredEvent × Bool :=
  let extractEvents := if isZip then [PredEvent.extractArchive] else []
  match loopFail with
  | some k =>
    let doneEvents := (targets.take k).flatMap
      (fun tv => [PredEvent.loadEstimator tv, PredEvent.writePredictions tv])
    (extractEvents ++ doneEvents ++ [PredEvent.loadEstimator (targets.getD k "")], false)
  | none =>
    let loopEvents := targets.flatMap
      (fun tv => [PredEvent.loadEstimator tv, PredEvent.writePredictions tv])
    (extractEvents ++ loopEvents ++
      [PredEvent.mergePredictions, PredEvent.reconcileGroundTruth] ++
      (if isZip then [PredEvent.removeExtracted] else []), true)

/-- Whether the extracted sibling directory exists once the function has
returned (or its exception has propagated): it was created by
`shutil.unpack_archive` and not removed by `shutil.rmtree`. -/
def extractedDirExists (tr : List PredEvent) : Bool :=
  tr.contains PredEvent.extractArchive && !(tr.contains PredEvent.removeExtracted)

/-! ## The per-target loop body as a store transformer (predict.py lines 163-179)

To talk about mutation, DataFrame variables are references into an explicit
store of tables.  `input_data` lives at a reference; the loop body allocates
`predictions_df` as a deep copy (a fresh reference holding the same value),
assigns the prediction column on that reference, and `_rank_predictions`
mutates the same reference in place (pandas `DataFrame.insert`). -/

abbrev Store : Type := List (Table ℚ)

def readRef (s : Store) (i : Nat) : Table ℚ := s.getD i ⟨[], []⟩

def writeRef (s : Store) (i : Nat) (t : Table ℚ) : Store := s.set i t

/-- One iteration of the prediction loop (predict.py lines 163-179), given
the loaded estimator's prediction function `predictFn`:
`y_pred = estimator.predict(input_data)`;
`predictions_df = input_data.copy(deep=True)`;
`predictions_df[target_variable] = y_pred`;
`_rank_predictions(data=predictions_df, ...)` (in-place).
Returns the new store and the reference of the per-target table that is
then written to `predictions-<target>.csv`. -/
def perTargetStep (predictFn : Table ℚ → List ℚ) (tv : String) (gib : Bool)
    (s : Store) (inputRef : Nat) : Store × Nat :=
  let input := readRef s inputRef
  let y := predictFn input
  let pr := s.length
  let s1 := s ++ [input]
  let s2 := writeRef s1 pr (setColumnList (readRef s1 pr) tv y)
  let s3 := writeRef s2 pr (rankPredictions (readRef s2 pr) tv gib)
  (s3, pr)

/-- The whole prediction loop (predict.py lines 150-180) over the entries of
`estimators_config["estimators"]`, each entry carrying its target variable,
its `greater_is_better` flag and the prediction function of the estimator
resolved for it.  Returns the final store and the references of the
per-target prediction tables in order. -/
def runPredictionLoop (entries : List (String × Bool × (Table ℚ → List ℚ)))
    (s : Store) (inputRef : Nat) : Store × List Nat :=
  match entries with
  | [] => (s, [])
  | e :: rest =>
    let (s', pr) := perTargetStep e.2.2 e.1 e.2.1 s inputRef
    let (s'', prs) := runPredictionLoop rest s' inputRef
    (s'', pr :: prs)

/-! ## The UI config generator (`ui/tools/generate_files.py`, lines 9-18) -/

/-- YAML values as written by `ruamel.yaml` / read by `yaml.safe_load`. -/
inductive YVal where
  | str (v : String)
  | int (v : Int)
  | bool (v : Bool)
  | list (l : List YVal)
  | map (m : List (String × YVal))

/-- `generate_prediction_config_file` (generate_files.py lines 9-18): the
dictionary dumped to the prediction configuration file.  Its `estimators`
entry is a single mapping built from `output_values[0]` (an empty
`output_values` raises `IndexError`, modelled as `none`). -/
def generatePredictionConfig (fixed_input_values variable_input_values : YVal)
    (output_values : List String) (cfg_estimator_file : String)
    (cfg_greater_is_better : Bool) : Option (List (String × YVal)) :=
  match output_values with
  | [] => none
  | t0 :: _ =>
    some [("fixed_values", fixed_input_values),
          ("variable_values", variable_input_values),
          ("estimators", YVal.map
            [("target_variable", YVal.str t0),
             ("estimator_file", YVal.str cfg_estimator_file),
             ("greater_is_better", YVal.bool cfg_greater_is_better)])]

/-- The shape of the `estimators` value the batch pipeline consumes
(predict.py lines 150-160 iterate it as a list of mapping entries, reading
`target_variable` and `greater_is_better` from each), required by the spec
to cover every selected output value. -/
def validEstimatorsValue (v : YVal) (outputs : List String) : Prop :=
  ∃ entries : List (List (String × YVal)),
    v = YVal.list (entries.map YVal.map) ∧
    (∀ e ∈ entries, (dictLookup e "target_variable").isSome ∧
      (dictLookup e "greater_is_better").isSome) ∧
    (∀ t ∈ outputs, ∃ e ∈ entries, dictLookup e "target_variable" = some (YVal.str t))

/-! ## Supporting lemmas: column lookup -/

lemma colIdx_lt_length {cols : List String} {name : String} {i : Nat}
    (h : colIdx cols name = some i) : i < cols.length := by
  induction cols generalizing i with
  | nil => simp [colIdx] at h
  | cons c cs ih =>
    by_cases hc : c = name
    · simp [colIdx, hc] at h
      simp [List.length_cons]
      omega
    · simp only [colIdx, hc, if_false, Option.map_eq_some'] at h
      obtain ⟨j, hj, rfl⟩ := h
      have := ih hj
      simp [List.length_cons]
      omega

lemma colIdx_get {cols : List String} {name : String} {i : Nat}
    (h : colIdx cols name = some i) : cols.get? i = some name := by
  induction cols generalizing i with
  | nil => simp [colIdx] at h
  | cons c cs ih =>
    by_cases hc : c = name
    · simp [colIdx, hc] at h
      subst h
      simp [hc]
    · simp only [colIdx, hc, if_false, Option.map_eq_some'] at h
      obtain ⟨j, hj, rfl⟩ := h
      simpa using ih hj

lemma colIdx_eq_none_iff {cols : List String} {name : String} :
    colIdx cols name = none ↔ name ∉ cols := by
  induction cols with
  | nil => simp [colIdx]
  | cons c cs ih =>
    by_cases hc : c = name
    · simp [colIdx, hc]
    · simp [colIdx, hc, ih, Ne.symm hc]

lemma colIdx_append_left {cols l : List String} {name : String} {i : Nat}
    (h : colIdx cols name = some i) : colIdx (cols ++ l) name = some i := by
  induction cols generalizing i with
  | nil => simp [colIdx] at h
  | cons c cs ih =>
    by_cases hc : c = name
    · simp [colIdx, hc] at h ⊢
      omega
    · simp only [colIdx, hc, if_false, Option.map_eq_some'] at h
      obtain ⟨j, hj, rfl⟩ := h
      simp only [List.cons_append, colIdx, hc, if_false, List.append_eq, ih hj,
        Option.map_some']

lemma colIdx_append_self {cols : List String} {name : String} (h : name ∉ cols) :
    colIdx (cols ++ [name]) name = some cols.length := by
  induction cols with
  | nil => simp [colIdx]
  | cons c cs ih =>
    have hc : ¬ c = name := fun hcn => h (hcn ▸ List.mem_cons_self c cs)
    have hn : name ∉ cs := fun hm => h (List.mem_cons_of_mem c hm)
    simp only [List.cons_append, colIdx, hc, if_false, List.append_eq, ih hn,
      Option.map_some', List.length_cons]

/-! ## Supporting lemmas: setting a column -/

lemma setColumnScalar_rows_length {α : Type} (t : Table α) (name : String) (v : α) :
    (setColumnScalar t name v).rows.length = t.rows.length := by
  unfold setColumnScalar
  cases colIdx t.columns name <;> simp

lemma setColumnScalar_wf {α : Type} {t : Table α} (hw : wellFormed t) (name : String) (v : α) :
    wellFormed (setColumnScalar t name v) := by
  unfold setColumnScalar
  cases h : colIdx t.columns name with
  | some i =>
    intro r hr
    simp only [List.mem_map] at hr
    obtain ⟨r0, hr0, rfl⟩ := hr
    simpa using hw r0 hr0
  | none =>
    intro r hr
    simp only [List.mem_map] at hr
    obtain ⟨r0, hr0, rfl⟩ := hr
    simp [hw r0 hr0]

lemma setColumnScalar_const_self {α : Type} {t : Table α} (hw : wellFormed t)
    (name : String) (v : α) : columnIsConst (setColumnScalar t name v) name v := by
  unfold setColumnScalar
  cases h : colIdx t.columns name with
  | some i =>
    refine ⟨i, h, ?_⟩
    intro r hr
    simp only [List.mem_map] at hr
    obtain ⟨r0, hr0, rfl⟩ := hr
    have hi : i < r0.length := (hw r0 hr0) ▸ colIdx_lt_length h
    exact List.get?_set_eq_of_lt v hi
  | none =>
    refine ⟨t.columns.length, colIdx_append_self (colIdx_eq_none_iff.1 h), ?_⟩
    intro r hr
    simp only [List.mem_map] at hr
    obtain ⟨r0, hr0, rfl⟩ := hr
    have hl : r0.length = t.columns.length := hw r0 hr0
    rw [List.get?_append_right (by omega)]
    simp [hl]

lemma setColumnScalar_const_other {α : Type} {t : Table α} {k : String} {w : α}
    (hw : wellFormed t) (name : String) (v : α) (hk : k ≠ name)
    (hc : columnIsConst t k w) : columnIsConst (setColumnScalar t name v) k w := by
  obtain ⟨i, hi, hrows⟩ := hc
  unfold setColumnScalar
  cases h : colIdx t.columns name with
  | some j =>
    refine ⟨i, hi, ?_⟩
    intro r hr
    simp only [List.mem_map] at hr
    obtain ⟨r0, hr0, rfl⟩ := hr
    have hij : j ≠ i := by
      intro hji
      have h1 := colIdx_get hi
      have h2 := colIdx_get h
      rw [hji, h1] at h2
      exact hk (Option.some.inj h2)
    rw [List.get?_set_ne v _ hij]
    exact hrows r0 hr0
  | none =>
    refine ⟨i, colIdx_append_left hi, ?_⟩
    intro r hr
    simp only [List.mem_map] at hr
    obtain ⟨r0, hr0, rfl⟩ := hr
    have hlt : i < r0.length := (hw r0 hr0) ▸ colIdx_lt_length hi
    rw [List.get?_append hlt]
    exact hrows r0 hr0

lemma fold_setColumnScalar_wf {α : Type} (pairs : List (String × α)) {t : Table α}
    (hw : wellFormed t) :
    wellFormed (pairs.foldl (fun t kv => setColumnScalar t kv.1 kv.2) t) := by
  induction pairs generalizing t with
  | nil => exact hw
  | cons p rest ih => exact ih (setColumnScalar_wf hw p.1 p.2)

lemma fold_setColumnScalar_rows_length {α : Type} (pairs : List (String × α)) (t : Table α) :
    (pairs.foldl (fun t kv => setColumnScalar t kv.1 kv.2) t).rows.length = t.rows.length := by
  induction pairs generalizing t with
  | nil => rfl
  | cons p rest ih =>
    simpa [setColumnScalar_rows_length] using ih (setColumnScalar t p.1 p.2)

lemma fold_setColumnScalar_const {α : Type} (pairs : List (String × α)) {t : Table α}
    {k : String} {v : α} (hw : wellFormed t) (hc : columnIsConst t k v)
    (hk : k ∉ dictKeys pairs) :
    columnIsConst (pairs.foldl (fun t kv => setColumnScalar t kv.1 kv.2) t) k v := by
  induction pairs generalizing t with
  | nil => exact hc
  | cons p rest ih =>
    have hk1 : k ≠ p.1 := by
      intro h
      exact hk (by simp [dictKeys, h])
    have hk2 : k ∉ dictKeys rest := by
      intro h
      exact hk (by simp [dictKeys] at h ⊢; exact Or.inr h)
    exact ih (setColumnScalar_wf hw p.1 p.2) (setColumnScalar_const_other hw p.1 p.2 hk1 hc) hk2

lemma fold_setColumnScalar_mem {α : Type} (pairs : List (String × α)) {t : Table α}
    (hw : wellFormed t) (hnd : (dictKeys pairs).Nodup) {k : String} {v : α}
    (hkv : (k, v) ∈ pairs) :
    columnIsConst (pairs.foldl (fun t kv => setColumnScalar t kv.1 kv.2) t) k v := by
  induction pairs generalizing t with
  | nil => cases hkv
  | cons p rest ih =>
    rcases List.mem_cons.1 hkv with heq | hmem
    · have hk : k = p.1 := by rw [← heq]
      have hv : v = p.2 := by rw [← heq]
      have hout : k ∉ dictKeys rest := by
        simp only [dictKeys, List.map_cons, List.nodup_cons] at hnd
        rw [hk]
        exact fun hm => hnd.1 hm
      have := setColumnScalar_const_self hw p.1 p.2
      rw [← hk, ← hv] at this
      rw [hk, hv] at this ⊢
      exact fold_setColumnScalar_const rest (setColumnScalar_wf hw p.1 p.2) this
        (by rwa [← hk])
    · have hnd2 : (dictKeys rest).Nodup := by
        simp only [dictKeys, List.map_cons, List.nodup_cons] at hnd
        exact hnd.2
      exact ih (setColumnScalar_wf hw p.1 p.2) hnd2 hmem

/-! ## Supporting lemmas: dicts -/

lemma any_key_iff_mem {α : Type} (d : List (String × α)) (k : String) :
    d.any (fun p => p.1 = k) = true ↔ k ∈ dictKeys d := by
  rw [List.any_eq_true]
  unfold dictKeys
  rw [List.mem_map]
  constructor
  · rintro ⟨p, hp, hpk⟩
    exact ⟨p, hp, by simpa using hpk⟩
  · rintro ⟨p, hp, hpk⟩
    exact ⟨p, hp, by simpa using hpk⟩

lemma dictKeys_dictInsert {α : Type} (d : List (String × α)) (k : String) (v : α) :
    dictKeys (dictInsert d k v) =
      if k ∈ dictKeys d then dictKeys d else dictKeys d ++ [k] := by
  unfold dictInsert
  by_cases h : k ∈ dictKeys d
  · rw [if_pos ((any_key_iff_mem d k).2 h), if_pos h]
    unfold dictKeys
    rw [List.map_map]
    apply List.map_congr_left
    intro p _
    by_cases hp : p.1 = k
    · simp [hp]
    · simp [hp]
  · rw [if_neg (fun ha => h ((any_key_iff_mem d k).1 ha)), if_neg h]
    simp [dictKeys]

lemma mem_dictKeys_dictInsert {α : Type} (d : List (String × α)) (k : String) (v : α) :
    k ∈ dictKeys (dictInsert d k v) := by
  rw [dictKeys_dictInsert]
  by_cases h : k ∈ dictKeys d <;> simp [h]

lemma mem_dictKeys_dictInsert_of_mem {α : Type} {d : List (String × α)} {j : String}
    (k : String) (v : α) (h : j ∈ dictKeys d) : j ∈ dictKeys (dictInsert d k v) := by
  rw [dictKeys_dictInsert]
  by_cases hk : k ∈ dictKeys d <;> simp [hk, h]

lemma dictKeys_nodup_dictInsert {α : Type} {d : List (String × α)} (k : String) (v : α)
    (h : (dictKeys d).Nodup) : (dictKeys (dictInsert d k v)).Nodup := by
  rw [dictKeys_dictInsert]
  by_cases hk : k ∈ dictKeys d
  · simpa [hk] using h
  · rw [if_neg hk]
    rw [List.nodup_append]
    refine ⟨h, List.nodup_singleton k, ?_⟩
    intro a ha hak
    rw [List.mem_singleton] at hak
    exact hk (hak ▸ ha)

lemma fold_dictInsert_keys_nodup {α : Type} (l : List (String × α)) :
    ∀ acc : List (String × α), (dictKeys acc).Nodup →
      (dictKeys (l.foldl (fun d p => dictInsert d p.1 p.2) acc)).Nodup := by
  induction l with
  | nil => exact fun acc h => h
  | cons p rest ih =>
    intro acc h
    exact ih (dictInsert acc p.1 p.2) (dictKeys_nodup_dictInsert p.1 p.2 h)

lemma dictOfPairs_keys_nodup {α : Type} (l : List (String × α)) :
    (dictKeys (dictOfPairs l)).Nodup :=
  fold_dictInsert_keys_nodup l [] (by simp [dictKeys])

lemma dictUnion_keys_nodup {α : Type} {a : List (String × α)} (b : List (String × α))
    (ha : (dictKeys a).Nodup) : (dictKeys (dictUnion a b)).Nodup :=
  fold_dictInsert_keys_nodup b a ha

lemma dictLookup_mem {α : Type} {d : List (String × α)} {k : String} {v : α}
    (h : dictLookup d k = some v) : (k, v) ∈ d := by
  unfold dictLookup at h
  rw [Option.map_eq_some'] at h
  obtain ⟨p, hp, hv⟩ := h
  have h1 : p.1 = k := by simpa using List.find?_some hp
  have h2 : p ∈ d := List.mem_of_find?_eq_some hp
  have : p = (k, v) := by
    cases p
    simp_all
  rwa [this] at h2

/-! ## Supporting lemmas: Cartesian product -/

lemma sum_map_const_nat {α : Type} (l : List α) (c : Nat) :
    (l.map (fun _ => c)).sum = l.length * c := by
  induction l with
  | nil => simp
  | cons x xs ih => simp [ih, Nat.succ_mul, Nat.add_comm]

lemma pyProduct_length {α : Type} (L : List (List α)) :
    (pyProduct L).length = (L.map List.length).prod := by
  induction L with
  | nil => simp [pyProduct]
  | cons l ls ih =>
    simp only [pyProduct, List.length_flatten, List.map_map, List.map_cons, List.prod_cons]
    have h1 : (List.map (List.length ∘ fun x => List.map (fun r => x :: r) (pyProduct ls)) l)
        = l.map (fun _ => (pyProduct ls).length) := by
      apply List.map_congr_left
      intro x _
      simp
    rw [h1, sum_map_const_nat, ih]

lemma pyProduct_mem_length {α : Type} {L : List (List α)} {r : List α}
    (h : r ∈ pyProduct L) : r.length = L.length := by
  induction L generalizing r with
  | nil =>
    simp [pyProduct] at h
    simp [h]
  | cons l ls ih =>
    simp only [pyProduct, List.mem_flatten, List.mem_map] at h
    obtain ⟨sub, ⟨x, _, rfl⟩, hr⟩ := h
    simp only [List.mem_map] at hr
    obtain ⟨r0, hr0, rfl⟩ := hr
    simp [ih hr0]

lemma base_table_wf (vd : List (String × List Int)) :
    wellFormed (⟨dictKeys vd, pyProduct (vd.map (·.2))⟩ : Table Int) := by
  intro r hr
  have := pyProduct_mem_length hr
  simpa [dictKeys] using this

lemma createInputSpace_ok {cfg : InputConfig} {orig : Option (List (String × List Int))}
    {vd : List (String × List Int)} (hvd : buildVariableDict cfg orig = Except.ok vd) :
    createInputSpace cfg orig = Except.ok ((dictOfPairs cfg.fixed_values).foldl
      (fun t kv => setColumnScalar t kv.1 kv.2)
      (⟨dictKeys vd, pyProduct (vd.map (·.2))⟩ : Table Int)) := by
  unfold createInputSpace
  rw [hvd]
  rfl

lemma createInputSpace_error {cfg : InputConfig} {orig : Option (List (String × List Int))}
    {e : PredictError} (hvd : buildVariableDict cfg orig = Except.error e) :
    createInputSpace cfg orig = Except.error e := by
  unfold createInputSpace
  rw [hvd]
  rfl

/-- The config of the spec's own example for Claim C4/C9:
`{fixed_values: [{a: 1}], variable_values: [{b: [1, 2]}]}`. -/
def specExampleConfig : InputConfig := ⟨[("a", 1)], [("b", [1, 2])], []⟩

/-- A configuration with two duplicate-named variable-value lists. -/
def dupListsConfig : InputConfig := ⟨[], [("b", [1, 2]), ("b", [1, 2, 3])], []⟩

/-- C4 (counterexample): with two variable-value lists both named `b`, of
cardinalities 2 and 3, the input-space table has 3 rows (the flattened,
last-write-wins mapping keeps only the second list), not the product 6 of
the cardinalities of all the lists, duplicate-named lists included. -/
theorem C4_counterexample :
    (createInputSpace dupListsConfig none).toOption.map (fun t => t.rows.length) = some 3 ∧
    (dupListsConfig.variable_values.map (fun p => p.2.length)).prod = 6 := by
  constructor
  · rfl
  · rfl

/-- C4 (amended): for every configuration accepted by the Input-Space
Builder, the row count of the resulting table equals the product of the
cardinalities of the value lists of the flattened variable/interpolation
mapping (`variable_dict`, in which duplicate-named lists have collapsed,
last write wins), and does not depend on the fixed values. -/
theorem C4_input_space_row_count (cfg : InputConfig)
    (orig : Option (List (String × List Int))) (vd : List (String × List Int))
    (t : Table Int) (hvd : buildVariableDict cfg orig = Except.ok vd)
    (ht : createInputSpace cfg orig = Except.ok t) :
    t.rows.length = (vd.map (fun p => p.2.length)).prod := by
  rw [createInputSpace_ok hvd] at ht
  rw [← Except.ok.inj ht]
  rw [fold_setColumnScalar_rows_length]
  show (pyProduct (vd.map (·.2))).length = _
  rw [pyProduct_length, List.map_map]
  rfl

theorem C4_input_space_row_count_witness :
    buildVariableDict dupListsConfig none = Except.ok [("b", [1, 2, 3])] ∧
    createInputSpace dupListsConfig none = Except.ok ⟨["b"], [[1], [2], [3]]⟩ ∧
    (⟨["b"], [[1], [2], [3]]⟩ : Table Int).rows.length
      = ([("b", [1, 2, 3])].map (fun p : String × List Int => p.2.length)).prod :=
  ⟨by rfl, by rfl,
    C4_input_space_row_count dupListsConfig none [("b", [1, 2, 3])] _ (by rfl) (by rfl)⟩

/-- C9: for every configuration accepted by the Input-Space Builder and
every feature in `fixed_values`, the corresponding column of the resulting
table holds the (last-written) fixed value of that feature in every row. -/
theorem C9_fixed_columns_constant (cfg : InputConfig)
    (orig : Option (List (String × List Int))) (t : Table Int)
    (ht : createInputSpace cfg orig = Except.ok t) (name : String) (v : Int)
    (hv : dictLookup (dictOfPairs cfg.fixed_values) name = some v) :
    columnIsConst t name v := by
  cases hvd : buildVariableDict cfg orig with
  | error e =>
    rw [createInputSpace_error hvd] at ht
    exact Except.noConfusion ht
  | ok vd =>
    rw [createInputSpace_ok hvd] at ht
    rw [← Except.ok.inj ht]
    exact fold_setColumnScalar_mem _ (base_table_wf vd) (dictOfPairs_keys_nodup _)
      (dictLookup_mem hv)

theorem C9_fixed_columns_constant_witness :
    createInputSpace specExampleConfig none = Except.ok ⟨["b", "a"], [[1, 1], [2, 1]]⟩ ∧
    columnIsConst (⟨["b", "a"], [[1, 1], [2, 1]]⟩ : Table Int) "a" 1 :=
  ⟨by rfl, C9_fixed_columns_constant specExampleConfig none _ (by rfl) "a" 1 (by rfl)⟩

/-! ## Supporting lemmas: interpolation dict -/

lemma interpDict_aux (d : List (String × List Int)) (names : List String)
    (acc : List (String × List Int)) (h : ∀ k ∈ names, (dictLookup d k).isSome) :
    ∃ m, (names.foldlM (fun acc k =>
        match dictLookup d k with
        | some col => Except.ok (dictInsert acc k (getDataRangeMissingValues col))
        | none => Except.error PredictError.keyError) acc) = Except.ok m ∧
      (∀ k ∈ dictKeys acc, k ∈ dictKeys m) ∧ (∀ k ∈ names, k ∈ dictKeys m) := by
  induction names generalizing acc with
  | nil => exact ⟨acc, rfl, fun k hk => hk, by simp⟩
  | cons n ns ih =>
    have hn : (dictLookup d n).isSome := h n (List.mem_cons_self n ns)
    obtain ⟨col, hcol⟩ := Option.isSome_iff_exists.1 hn
    obtain ⟨m, hm, hacc, hns⟩ := ih (dictInsert acc n (getDataRangeMissingValues col))
      (fun k hk => h k (List.mem_cons_of_mem n hk))
    refine ⟨m, ?_, ?_, ?_⟩
    · rw [List.foldlM_cons, hcol]
      exact hm
    · intro k hk
      exact hacc k (mem_dictKeys_dictInsert_of_mem n (getDataRangeMissingValues col) hk)
    · intro k hk
      rcases List.mem_cons.1 hk with rfl | hk2
      · exact hacc k (mem_dictKeys_dictInsert acc k (getDataRangeMissingValues col))
      · exact hns k hk2

lemma interpDict_ok (d : List (String × List Int)) (names : List String)
    (h : ∀ k ∈ names, (dictLookup d k).isSome) :
    ∃ m, interpDict d names = Except.ok m ∧ ∀ k ∈ names, k ∈ dictKeys m := by
  obtain ⟨m, hm, _, hns⟩ := interpDict_aux d names [] h
  exact ⟨m, hm, hns⟩

/-- The configuration used to refute C1: `b` is declared both as a variable
value and as an interpolation value. -/
def dupVarInterpConfig : InputConfig := ⟨[], [("b", [1, 2])], ["b"]⟩

/-- C1 (counterexample): with the same feature declared in both
`variable_values` and `interpolation_values`, building the input space
succeeds (no error of any kind) when the historical data is absent (`None`)
or empty; only with non-empty historical data is the configuration error
raised.  This refutes "regardless of whether historical data is supplied,
absent, or empty". -/
theorem C1_counterexample :
    (createInputSpace dupVarInterpConfig none).toOption.isSome = true ∧
    (createInputSpace dupVarInterpConfig (some [])).toOption.isSome = true ∧
    createInputSpace dupVarInterpConfig (some [("b", [1, 5])])
      = Except.error PredictError.configError :=
  ⟨rfl, rfl, rfl⟩

/-- C1 (amended): if the historical data is present and non-empty (and has a
column for every interpolation feature, so that the interpolation-value
computation itself does not raise first), then a feature name appearing both
in `variable_values` and in `interpolation_values` makes the Input-Space
Builder raise the configuration error and abort; with absent or empty
historical data interpolation contributes nothing and no error is raised. -/
theorem C1_duplicate_feature_error (cfg : InputConfig) (d : List (String × List Int))
    (hne : dataEmpty d = false)
    (hcols : ∀ k ∈ cfg.interpolation_values, (dictLookup d k).isSome)
    (x : String) (hxv : x ∈ dictKeys (dictOfPairs cfg.variable_values))
    (hxi : x ∈ cfg.interpolation_values) :
    createInputSpace cfg (some d) = Except.error PredictError.configError := by
  obtain ⟨m, hm, hmem⟩ := interpDict_ok d cfg.interpolation_values hcols
  have hbi : buildInterpolation cfg (some d) = Except.ok m := by
    show (if dataEmpty d = true then Except.ok []
      else interpDict d cfg.interpolation_values) = Except.ok m
    rw [hne]
    simpa using hm
  have hcheck : (dictKeys (dictOfPairs cfg.variable_values)).any
      (fun k => (dictKeys m).contains k) = true := by
    rw [List.any_eq_true]
    exact ⟨x, hxv, List.elem_eq_true_of_mem (hmem x hxi)⟩
  have hbv : buildVariableDict cfg (some d) = Except.error PredictError.configError := by
    unfold buildVariableDict
    rw [hbi]
    show (if ((dictKeys (dictOfPairs cfg.variable_values)).any
        (fun k => (dictKeys m).contains k)) = true
      then Except.error PredictError.configError
      else Except.ok (dictUnion (dictOfPairs cfg.variable_values) m)) =
        Except.error PredictError.configError
    rw [if_pos hcheck]
  exact createInputSpace_error hbv

theorem C1_duplicate_feature_error_witness :
    createInputSpace dupVarInterpConfig (some [("b", [1, 5])])
      = Except.error PredictError.configError :=
  C1_duplicate_feature_error dupVarInterpConfig [("b", [1, 5])] (by rfl)
    (by decide) "b" (by decide) (by decide)

/-! ## Supporting lemmas: column minimum / maximum and integer ranges -/

lemma foldl_min_le_init (c : List Int) (a : Int) : c.foldl min a ≤ a := by
  induction c generalizing a with
  | nil => exact le_refl a
  | cons x xs ih => exact (ih (min a x)).trans (min_le_left a x)

lemma foldl_min_le_mem (c : List Int) (a : Int) : ∀ x ∈ c, c.foldl min a ≤ x := by
  induction c generalizing a with
  | nil => intro x hx; cases hx
  | cons y ys ih =>
    intro x hx
    rcases List.mem_cons.1 hx with rfl | hx2
    · exact (foldl_min_le_init ys (min a x)).trans (min_le_right a x)
    · exact ih (min a y) x hx2

lemma foldl_min_choice (c : List Int) (a : Int) : c.foldl min a = a ∨ c.foldl min a ∈ c := by
  induction c generalizing a with
  | nil => exact Or.inl rfl
  | cons y ys ih =>
    rcases ih (min a y) with heq | hmem
    · rcases min_choice a y with h1 | h1
      · refine Or.inl ?_
        rw [List.foldl_cons, heq]
        exact h1
      · refine Or.inr ?_
        rw [List.foldl_cons, heq, h1]
        exact List.mem_cons_self y ys
    · exact Or.inr (List.mem_cons_of_mem y hmem)

lemma foldl_max_init_le (c : List Int) (a : Int) : a ≤ c.foldl max a := by
  induction c generalizing a with
  | nil => exact le_refl a
  | cons x xs ih => exact (le_max_left a x).trans (ih (max a x))

lemma foldl_max_mem_le (c : List Int) (a : Int) : ∀ x ∈ c, x ≤ c.foldl max a := by
  induction c generalizing a with
  | nil => intro x hx; cases hx
  | cons y ys ih =>
    intro x hx
    rcases List.mem_cons.1 hx with rfl | hx2
    · exact (le_max_right a x).trans (foldl_max_init_le ys (max a x))
    · exact ih (max a y) x hx2

lemma colMin_le {c : List Int} {x : Int} (hx : x ∈ c) : colMin c ≤ x :=
  foldl_min_le_mem c (c.headD 0) x hx

lemma le_colMax {c : List Int} {x : Int} (hx : x ∈ c) : x ≤ colMax c :=
  foldl_max_mem_le c (c.headD 0) x hx

lemma mem_intRange {a b n : Int} : n ∈ intRange a b ↔ a ≤ n ∧ n < b := by
  unfold intRange
  rw [List.mem_map]
  constructor
  · rintro ⟨i, hi, rfl⟩
    rw [List.mem_range] at hi
    omega
  · rintro ⟨h1, h2⟩
    refine ⟨(n - a).toNat, ?_, by omega⟩
    rw [List.mem_range]
    omega

/-- C3: for a non-empty historical column, the interpolation value list is
exactly the integers strictly between the column's minimum and maximum that
do not occur in the column; with empty or absent historical data,
interpolation contributes nothing (building the input space behaves exactly
as if no interpolation features were configured). -/
theorem C3_interpolation_values :
    (∀ col : List Int, col ≠ [] → ∀ n : Int,
        (n ∈ getDataRangeMissingValues col ↔ colMin col < n ∧ n < colMax col ∧ n ∉ col)) ∧
    (∀ (cfg : InputConfig) (d : List (String × List Int)), dataEmpty d = true →
        createInputSpace cfg (some d)
          = createInputSpace { cfg with interpolation_values := [] } (some d)) ∧
    (∀ cfg : InputConfig,
        createInputSpace cfg none
          = createInputSpace { cfg with interpolation_values := [] } none) := by
  refine ⟨?_, ?_, ?_⟩
  · intro col _ n
    unfold getDataRangeMissingValues
    rw [List.mem_filter, mem_intRange, decide_eq_true_eq]
    constructor
    · rintro ⟨⟨h1, h2⟩, h3⟩
      exact ⟨by omega, h2, h3⟩
    · rintro ⟨h1, h2, h3⟩
      exact ⟨⟨by omega, h2⟩, h3⟩
  · intro cfg d hd
    simp [createInputSpace, buildVariableDict, buildInterpolation, hd]
  · intro cfg
    rfl

theorem C3_interpolation_values_witness :
    ([1, 5, 3] : List Int) ≠ [] ∧
    (2 ∈ getDataRangeMissingValues [1, 5, 3] ↔
      colMin [1, 5, 3] < 2 ∧ 2 < colMax [1, 5, 3] ∧ (2 : Int) ∉ ([1, 5, 3] : List Int)) :=
  ⟨by decide, C3_interpolation_values.1 [1, 5, 3] (by decide) 2⟩

/-! ## Supporting lemmas: estimator resolution -/

lemma enumerate_append {α : Type} (a b : List α) : ∀ i : Nat,
    enumerate i (a ++ b) = enumerate i a ++ enumerate (i + a.length) b := by
  induction a with
  | nil => intro i; simp [enumerate]
  | cons x xs ih =>
    intro i
    show (i, x) :: enumerate (i + 1) (xs ++ b)
      = (i, x) :: (enumerate (i + 1) xs ++ enumerate (i + (xs.length + 1)) b)
    rw [ih (i + 1)]
    rw [show i + (xs.length + 1) = i + 1 + xs.length by omega]

lemma enumerate_get? {α : Type} (l : List α) : ∀ i j : Nat,
    (enumerate i l).get? j = (l.get? j).map (fun a => (i + j, a)) := by
  induction l with
  | nil => intro i j; simp [enumerate]
  | cons x xs ih =>
    intro i j
    cases j with
    | zero => simp [enumerate]
    | succ j2 =>
      simp only [enumerate, List.get?_cons_succ, ih (i + 1) j2]
      rw [show i + 1 + j2 = i + (j2 + 1) by omega]

lemma enumerate_mem_snd {α : Type} {l : List α} : ∀ {i : Nat} {p : Nat × α},
    p ∈ enumerate i l → p.2 ∈ l := by
  induction l with
  | nil => intro i p h; cases h
  | cons x xs ih =>
    intro i p h
    rcases List.mem_cons.1 h with rfl | h2
    · exact List.mem_cons_self x xs
    · exact List.mem_cons_of_mem x (ih h2)

lemma enumerate_zero_get_self {α : Type} {l : List α} {p : Nat × α}
    (h : p ∈ enumerate 0 l) : (enumerate 0 l).get? p.1 = some p := by
  obtain ⟨j, hj⟩ := List.mem_iff_get?.1 h
  have hg := enumerate_get? l 0 j
  rw [hj] at hg
  cases hlj : l.get? j with
  | none =>
    rw [hlj] at hg
    cases hg
  | some a =>
    rw [hlj, Option.map_some'] at hg
    have hp1 : p.1 = j := by
      rw [Option.some.inj hg]
      simp
    rw [hp1]
    exact hj

lemma minByCombined_mem (l : List (Nat × RankRow)) : ∀ p : Nat × RankRow,
    minByCombined p l = p ∨ minByCombined p l ∈ l := by
  induction l with
  | nil => intro p; exact Or.inl rfl
  | cons q rest ih =>
    intro p
    unfold minByCombined at ih ⊢
    rw [List.foldl_cons]
    rcases ih (if combinedRank q.2 < combinedRank p.2 then q else p) with heq | hmem
    · rw [heq]
      by_cases h : combinedRank q.2 < combinedRank p.2
      · rw [if_pos h]
        exact Or.inr (List.mem_cons_self q rest)
      · rw [if_neg h]
        exact Or.inl rfl
    · exact Or.inr (List.mem_cons_of_mem q hmem)

lemma minByCombined_le_init (l : List (Nat × RankRow)) : ∀ p : Nat × RankRow,
    combinedRank (minByCombined p l).2 ≤ combinedRank p.2 := by
  induction l with
  | nil => intro p; exact le_refl _
  | cons q rest ih =>
    intro p
    unfold minByCombined at ih ⊢
    rw [List.foldl_cons]
    by_cases h : combinedRank q.2 < combinedRank p.2
    · rw [if_pos h]
      exact (ih q).trans (le_of_lt h)
    · rw [if_neg h]
      exact ih p

lemma minByCombined_le_mem (l : List (Nat × RankRow)) : ∀ (p : Nat × RankRow),
    ∀ q ∈ l, combinedRank (minByCombined p l).2 ≤ combinedRank q.2 := by
  induction l with
  | nil => intro p q hq; cases hq
  | cons q0 rest ih =>
    intro p q hq
    unfold minByCombined at ih ⊢
    rw [List.foldl_cons]
    rcases List.mem_cons.1 hq with rfl | hq2
    · by_cases h : combinedRank q.2 < combinedRank p.2
      · rw [if_pos h]
        exact minByCombined_le_init rest q
      · rw [if_neg h]
        exact (minByCombined_le_init rest p).trans (not_lt.1 h)
    · by_cases h : combinedRank q0.2 < combinedRank p.2
      · rw [if_pos h]
        exact ih q0 q hq2
      · rw [if_neg h]
        exact ih p q hq2

lemma filterTarget_prefix (tv : String) (pre post : List RankRow)
    (hpre : ∀ r ∈ pre, r.target = tv) (hpost : ∀ r ∈ post, r.target ≠ tv) :
    filterTarget (pre ++ post) tv = enumerate 0 pre := by
  unfold filterTarget
  rw [enumerate_append pre post 0, List.filter_append]
  have h1 : (enumerate 0 pre).filter (fun p => p.2.target = tv) = enumerate 0 pre := by
    apply List.filter_eq_self.2
    intro p hp
    exact decide_eq_true (hpre p.2 (enumerate_mem_snd hp))
  have h2 : (enumerate (0 + pre.length) post).filter (fun p => p.2.target = tv) = [] := by
    rw [List.filter_eq_nil]
    intro p hp
    simp only [decide_eq_true_eq]
    exact hpost p.2 (enumerate_mem_snd hp)
  rw [h1, h2, List.append_nil]

/-- C5 (amended): whenever the ranking rows for the requested target
variable form a non-empty prefix of the ranking table (in particular
whenever the table only has rows for that target), the resolver selects a
row with minimal combined rank (MAPE rank plus normalized-RMSE rank) among
them and hands the external filename builder the family `"linear"` when
that row's linear flag is set and `"nonlinear"` otherwise.  (When rows of
other targets precede them, the positional slice
`ranking_df_var[idxmin_label:]` no longer starts at the minimal row and the
selection is wrong; see the counterexample.) -/
theorem C5_highest_ranked_estimator (tv : String) (pre post : List RankRow)
    (hpre : ∀ r ∈ pre, r.target = tv) (hpost : ∀ r ∈ post, r.target ≠ tv)
    (hne : pre ≠ []) :
    ∃ best ∈ pre, (∀ r ∈ pre, combinedRank best ≤ combinedRank r) ∧
      getHighestRankedEstimator (pre ++ post) tv
        = Except.ok ((if best.linear then "linear" else "nonlinear"), best.estimator) := by
  obtain ⟨p0, prest, rfl⟩ := List.exists_cons_of_ne_nil hne
  have hfvar := filterTarget_prefix tv (p0 :: prest) post hpre hpost
  have henum : enumerate 0 (p0 :: prest) = (0, p0) :: enumerate 1 prest := rfl
  set sel := minByCombined (0, p0) (enumerate 1 prest) with hsel
  have hselmem : sel ∈ enumerate 0 (p0 :: prest) := by
    rcases minByCombined_mem (enumerate 1 prest) (0, p0) with heq | hmem
    · rw [henum, hsel, heq]
      exact List.mem_cons_self _ _
    · rw [henum]
      exact List.mem_cons_of_mem _ hmem
  have hgetsel : (enumerate 0 (p0 :: prest)).get? sel.1 = some sel :=
    enumerate_zero_get_self hselmem
  refine ⟨sel.2, enumerate_mem_snd hselmem, ?_, ?_⟩
  · intro r hr
    obtain ⟨j, hj⟩ := List.mem_iff_get?.1 hr
    have hjr : (j, r) ∈ enumerate 0 (p0 :: prest) := by
      apply List.get?_mem (n := j)
      rw [enumerate_get? (p0 :: prest) 0 j, hj]
      simp
    rw [henum] at hjr
    rcases List.mem_cons.1 hjr with heq | hmem
    · have : r = p0 := congrArg Prod.snd heq
      rw [this, hsel]
      exact minByCombined_le_init (enumerate 1 prest) (0, p0)
    · rw [hsel]
      exact minByCombined_le_mem (enumerate 1 prest) (0, p0) (j, r) hmem
  · unfold getHighestRankedEstimator
    rw [hfvar]
    have hidx : idxminCombined (enumerate 0 (p0 :: prest)) = some sel.1 := by
      rw [henum]
      rfl
    have hdrop : ((enumerate 0 (p0 :: prest)).drop sel.1).head? = some sel := by
      rw [List.head?_drop, ← List.get?_eq_getElem?]
      exact hgetsel
    show (match idxminCombined (enumerate 0 (p0 :: prest)) with
      | none => Except.error PredictError.valueError
      | some lbl =>
        match ((enumerate 0 (p0 :: prest)).drop lbl).head? with
        | none => Except.error PredictError.indexError
        | some best => Except.ok
            ((if best.2.linear then "linear" else "nonlinear"), best.2.estimator))
      = Except.ok ((if sel.2.linear then "linear" else "nonlinear"), sel.2.estimator)
    rw [hidx]
    show (match ((enumerate 0 (p0 :: prest)).drop sel.1).head? with
      | none => Except.error PredictError.indexError
      | some best => Except.ok
          ((if best.2.linear then "linear" else "nonlinear"), best.2.estimator))
      = Except.ok ((if sel.2.linear then "linear" else "nonlinear"), sel.2.estimator)
    rw [hdrop]

/-- The ranking table refuting C5 in general: a row for a different target
`u` precedes the two rows for `t` of the spec's example.  The minimal
combined rank for `t` is 2, attained by the nonlinear row `E2` (index label
1), but `ranking_df_var[1:]` positionally selects the linear row `E1`. -/
def rankingWithOtherTarget : List RankRow :=
  [⟨"u", 1, 1, false, "E0"⟩, ⟨"t", 1, 1, false, "E2"⟩, ⟨"t", 2, 1, true, "E1"⟩]

/-- C5 (counterexample): on `rankingWithOtherTarget` the resolver returns
the linear estimator `E1` for target `t`, although the `t`-row `E2`
(nonlinear) has the strictly smaller combined rank, refuting "selects the
row whose combined rank is minimal among the rows for that target" for
arbitrary ranking tables. -/
theorem C5_counterexample :
    getHighestRankedEstimator rankingWithOtherTarget "t" = Except.ok ("linear", "E1") ∧
    combinedRank ⟨"t", 1, 1, false, "E2"⟩ < combinedRank ⟨"t", 2, 1, true, "E1"⟩ ∧
    (⟨"t", 1, 1, false, "E2"⟩ : RankRow) ∈ rankingWithOtherTarget ∧
    (⟨"t", 1, 1, false, "E2"⟩ : RankRow).target = "t" := by
  refine ⟨by rfl, by decide, by decide, by decide⟩

theorem C5_highest_ranked_estimator_witness :
    (∃ best ∈ [(⟨"t", 2, 1, true, "E1"⟩ : RankRow), ⟨"t", 1, 1, false, "E2"⟩],
      (∀ r ∈ [(⟨"t", 2, 1, true, "E1"⟩ : RankRow), ⟨"t", 1, 1, false, "E2"⟩],
        combinedRank best ≤ combinedRank r) ∧
      getHighestRankedEstimator
        ([(⟨"t", 2, 1, true, "E1"⟩ : RankRow), ⟨"t", 1, 1, false, "E2"⟩] ++ []) "t"
        = Except.ok ((if best.linear then "linear" else "nonlinear"), best.estimator)) ∧
    getHighestRankedEstimator
      [(⟨"t", 2, 1, true, "E1"⟩ : RankRow), ⟨"t", 1, 1, false, "E2"⟩] "t"
      = Except.ok ("nonlinear", "E2") :=
  ⟨C5_highest_ranked_estimator "t" [⟨"t", 2, 1, true, "E1"⟩, ⟨"t", 1, 1, false, "E2"⟩] []
    (by decide) (by decide) (by decide), by rfl⟩

/-! ## C7: merge-step input selection -/

lemma strContains_append_self (s f : String) : strContains (s ++ f) f = true := by
  unfold strContains
  rw [decide_eq_true_eq, String.data_append]
  exact (List.suffix_append s.data f.data).isInfix

/-- C7: whatever files the output directory holds, the merge step's join
inputs are exactly the files matching the per-target naming pattern
`predictions-*.csv` whose full path does not contain either output
filename; in particular neither the consolidated-prediction file
(`all-predictions.csv`, which fails the glob) nor the ground-truth file
(`predictions-with-ground-truth.csv`, which matches the glob but is
excluded by the substring filter) is ever a join input, even on reruns
where both are present. -/
theorem C7_merge_excludes_outputs (outputPath : String) (dirFiles : List String) :
    PRED_ALL_PREDICTIONS_FILE ∉ mergeJoinInputs outputPath dirFiles ∧
    PRED_GROUND_TRUTH_FILE ∉ mergeJoinInputs outputPath dirFiles ∧
    ∀ f, f ∈ mergeJoinInputs outputPath dirFiles ↔
      (f ∈ dirFiles ∧ matchesPredictionsGlob f = true ∧
        strContains (outputPath ++ "/" ++ f) PRED_ALL_PREDICTIONS_FILE = false ∧
        strContains (outputPath ++ "/" ++ f) PRED_GROUND_TRUTH_FILE = false) := by
  have hchar : ∀ f, f ∈ mergeJoinInputs outputPath dirFiles ↔
      (f ∈ dirFiles ∧ matchesPredictionsGlob f = true ∧
        strContains (outputPath ++ "/" ++ f) PRED_ALL_PREDICTIONS_FILE = false ∧
        strContains (outputPath ++ "/" ++ f) PRED_GROUND_TRUTH_FILE = false) := by
    intro f
    unfold mergeJoinInputs
    rw [List.mem_filter, List.mem_filter]
    constructor
    · rintro ⟨⟨hf, hglob⟩, hskip⟩
      rw [Bool.not_eq_true', Bool.or_eq_false_iff] at hskip
      exact ⟨hf, hglob, hskip.1, hskip.2⟩
    · rintro ⟨hf, hglob, h1, h2⟩
      refine ⟨⟨hf, hglob⟩, ?_⟩
      rw [Bool.not_eq_true', Bool.or_eq_false_iff]
      exact ⟨h1, h2⟩
  refine ⟨?_, ?_, hchar⟩
  · intro hmem
    have h := ((hchar PRED_ALL_PREDICTIONS_FILE).1 hmem).2.1
    have hfalse : matchesPredictionsGlob PRED_ALL_PREDICTIONS_FILE = false := by decide
    rw [h] at hfalse
    cases hfalse
  · intro hmem
    have h := ((hchar PRED_GROUND_TRUTH_FILE).1 hmem).2.2.2
    rw [strContains_append_self (outputPath ++ "/") PRED_GROUND_TRUTH_FILE] at h
    cases h

theorem C7_merge_excludes_outputs_witness :
    PRED_ALL_PREDICTIONS_FILE ∉ mergeJoinInputs "out"
      ["predictions-time.csv", "all-predictions.csv",
        "predictions-with-ground-truth.csv", "input_space.csv"] ∧
    PRED_GROUND_TRUTH_FILE ∉ mergeJoinInputs "out"
      ["predictions-time.csv", "all-predictions.csv",
        "predictions-with-ground-truth.csv", "input_space.csv"] ∧
    mergeJoinInputs "out" ["predictions-time.csv", "all-predictions.csv",
      "predictions-with-ground-truth.csv", "input_space.csv"] = ["predictions-time.csv"] :=
  ⟨(C7_merge_excludes_outputs "out" _).1, (C7_merge_excludes_outputs "out" _).2.1, by decide⟩

/-! ## C8: archive extraction and cleanup -/

lemma contains_eq_true_of_mem {α : Type} [DecidableEq α] {l : List α} {a : α}
    (h : a ∈ l) : l.contains a = true :=
  List.elem_eq_true_of_mem h

lemma contains_eq_false_of_not_mem {α : Type} [DecidableEq α] {l : List α} {a : α}
    (h : a ∉ l) : l.contains a = false := by
  cases hc : l.contains a with
  | false => rfl
  | true => exact absurd (List.mem_of_elem_eq_true hc) h

/-- C8: when the estimator source is a zip archive, `_run_predictions`
extracts it (the extraction is the first effect, before any estimator is
loaded); if the whole run — every target variable plus the merge and
reconciliation — completes without an exception, the extracted directory
has been removed when the function returns, while an exception inside the
per-target loop propagates before the `shutil.rmtree` call and leaves the
extracted directory on disk. -/
theorem C8_archive_extraction_cleanup (isZip : Bool) (targets : List String)
    (loopFail : Option Nat) (hk : ∀ k, loopFail = some k → k < targets.length) :
    (isZip = true →
      (runPredictionsTrace isZip targets loopFail).1.head? = some PredEvent.extractArchive) ∧
    (isZip = true → loopFail = none →
      (runPredictionsTrace isZip targets loopFail).2 = true ∧
      extractedDirExists (runPredictionsTrace isZip targets loopFail).1 = false) ∧
    (isZip = true → ∀ k, loopFail = some k →
      (runPredictionsTrace isZip targets loopFail).2 = false ∧
      extractedDirExists (runPredictionsTrace isZip targets loopFail).1 = true) := by
  refine ⟨?_, ?_, ?_⟩
  · intro hz
    subst hz
    cases loopFail <;> rfl
  · intro hz hnone
    subst hz
    subst hnone
    refine ⟨rfl, ?_⟩
    have hrm : PredEvent.removeExtracted ∈ (runPredictionsTrace true targets none).1 := by
      unfold runPredictionsTrace
      simp
    have hex : PredEvent.extractArchive ∈ (runPredictionsTrace true targets none).1 := by
      unfold runPredictionsTrace
      simp
    rw [extractedDirExists, contains_eq_true_of_mem hex, contains_eq_true_of_mem hrm]
    rfl
  · intro hz k hfail
    subst hz
    subst hfail
    refine ⟨rfl, ?_⟩
    have hex : PredEvent.extractArchive ∈ (runPredictionsTrace true targets (some k)).1 := by
      unfold runPredictionsTrace
      simp
    have hrm : PredEvent.removeExtracted ∉ (runPredictionsTrace true targets (some k)).1 := by
      unfold runPredictionsTrace
      simp [List.mem_flatMap]
    rw [extractedDirExists, contains_eq_true_of_mem hex, contains_eq_false_of_not_mem hrm]
    rfl

theorem C8_archive_extraction_cleanup_witness :
    extractedDirExists (runPredictionsTrace true ["time", "mem"] none).1 = false ∧
    extractedDirExists (runPredictionsTrace true ["time", "mem"] (some 1)).1 = true :=
  ⟨((C8_archive_extraction_cleanup true ["time", "mem"] none
      (fun k h => Option.noConfusion h)).2.1 rfl rfl).2,
   ((C8_archive_extraction_cleanup true ["time", "mem"] (some 1)
      (fun k h => by cases h; decide)).2.2 rfl 1 rfl).2⟩

/-! ## C2: the UI config generator versus the pipeline's estimators format -/

/-- C2 (code bug): for selected output values `["t1", "t2"]` the UI config
generator emits `estimators` as one single mapping mentioning only `"t1"`,
not the list of per-target entries (one per selected output value) that the
batch pipeline iterates over; the generator's own TODO comment flags
exactly this. -/
theorem C2_generated_estimators_invalid :
    ∃ cfgv, generatePredictionConfig (YVal.list []) (YVal.list []) ["t1", "t2"] "est.pkl" true
        = some cfgv ∧
      ∀ ev, dictLookup cfgv "estimators" = some ev →
        ¬ validEstimatorsValue ev ["t1", "t2"] := by
  refine ⟨_, rfl, ?_⟩
  intro ev hev
  have hcomp : dictLookup [("fixed_values", YVal.list []), ("variable_values", YVal.list []),
      ("estimators", YVal.map [("target_variable", YVal.str "t1"),
        ("estimator_file", YVal.str "est.pkl"), ("greater_is_better", YVal.bool true)])]
      "estimators"
      = some (YVal.map [("target_variable", YVal.str "t1"),
        ("estimator_file", YVal.str "est.pkl"), ("greater_is_better", YVal.bool true)]) := rfl
  rw [hcomp] at hev
  have hev2 := Option.some.inj hev
  rintro ⟨entries, heq, _, _⟩
  rw [← hev2] at heq
  cases heq

/-! ## Supporting lemmas: prediction ranking -/

lemma pandasRank_length (l : List ℚ) (asc : Bool) : (pandasRank l asc).length = l.length := by
  simp [pandasRank]

lemma columnValues_length {α : Type} [Inhabited α] {t : Table α} {name : String}
    (h : name ∈ t.columns) : (columnValues t name).length = t.rows.length := by
  unfold columnValues
  cases hc : colIdx t.columns name with
  | none => exact absurd (colIdx_eq_none_iff.1 hc) (by simpa using h)
  | some i =>
    show (t.rows.map (fun r => r.getD i default)).length = t.rows.length
    rw [List.length_map]

lemma getD_append_self_length {α : Type} [Inhabited α] (r : List α) (v : α) :
    (r ++ [v]).getD r.length default = v := by
  induction r with
  | nil => rfl
  | cons x xs ih => simp [ih]

lemma countP_eq_one_of_nodup {l : List ℚ} {x : ℚ} (hnd : l.Nodup) (hx : x ∈ l) :
    l.countP (fun y => decide (y = x)) = 1 := by
  induction l with
  | nil => cases hx
  | cons a as ih =>
    rw [List.nodup_cons] at hnd
    rcases List.mem_cons.1 hx with rfl | hmem
    · rw [List.countP_cons_of_pos _ _ (by simp)]
      have hz : as.countP (fun y => decide (y = x)) = 0 := by
        rw [List.countP_eq_zero]
        intro b hb
        simp only [decide_eq_true_eq]
        intro heq
        exact hnd.1 (heq ▸ hb)
      rw [hz]
    · rw [List.countP_cons_of_neg]
      · exact ih hnd.2 hmem
      · simp only [decide_eq_true_eq]
        intro heq
        exact hnd.1 (heq ▸ hmem)

lemma pandasRank_min_rank_one {l : List ℚ} {i : Nat} {x : ℚ} (hnd : l.Nodup)
    (hx : l.get? i = some x) (hmin : ∀ y ∈ l, x ≤ y) :
    (pandasRank l true).get? i = some 1 := by
  unfold pandasRank
  rw [List.get?_map, hx, Option.map_some']
  have h0 : l.countP (fun y => if true then decide (y < x) else decide (x < y)) = 0 := by
    rw [List.countP_eq_zero]
    intro a ha hc
    rw [if_pos rfl] at hc
    exact absurd (of_decide_eq_true hc) (not_lt.2 (hmin a ha))
  have h1 : l.countP (fun y => decide (y = x)) = 1 :=
    countP_eq_one_of_nodup hnd (List.get?_mem hx)
  rw [h0, h1]
  norm_num

lemma pandasRank_max_rank_one {l : List ℚ} {i : Nat} {x : ℚ} (hnd : l.Nodup)
    (hx : l.get? i = some x) (hmax : ∀ y ∈ l, y ≤ x) :
    (pandasRank l false).get? i = some 1 := by
  unfold pandasRank
  rw [List.get?_map, hx, Option.map_some']
  have h0 : l.countP (fun y => if false then decide (y < x) else decide (x < y)) = 0 := by
    rw [List.countP_eq_zero]
    intro a ha hc
    rw [if_neg Bool.false_ne_true] at hc
    exact absurd (of_decide_eq_true hc) (not_lt.2 (hmax a ha))
  have h1 : l.countP (fun y => decide (y = x)) = 1 :=
    countP_eq_one_of_nodup hnd (List.get?_mem hx)
  rw [h0, h1]
  norm_num

lemma sum_range_cast_q (n : Nat) : (∑ k in Finset.range n, (k : ℚ)) = n * (n - 1) / 2 := by
  induction n with
  | zero => simp
  | succ m ih =>
    rw [Finset.sum_range_succ, ih]
    push_cast
    ring

/-- The `average` tie method: the rank assigned to `x` is the arithmetic
mean of the ordinal positions `better + 1, ..., better + ties` its tie
group occupies. -/
lemma pandasRank_tie_average {l : List ℚ} {i : Nat} {x : ℚ} (asc : Bool)
    (hx : l.get? i = some x) :
    (pandasRank l asc).get? i
      = some ((∑ k in Finset.range (l.countP (fun y => decide (y = x))),
          ((l.countP (fun y => if asc then decide (y < x) else decide (x < y)) : ℚ) + k + 1))
        / (l.countP (fun y => decide (y = x)) : ℚ)) := by
  unfold pandasRank
  rw [List.get?_map, hx, Option.map_some']
  congr 1
  have hpos : 0 < l.countP (fun y => decide (y = x)) :=
    List.countP_pos.2 ⟨x, List.get?_mem hx, by simp⟩
  set cB := l.countP (fun y => if asc then decide (y < x) else decide (x < y)) with hcB
  set cE := l.countP (fun y => decide (y = x)) with hcE
  have hne : (cE : ℚ) ≠ 0 := by
    exact_mod_cast Nat.pos_iff_ne_zero.1 hpos
  have hsum : (∑ k in Finset.range cE, ((cB : ℚ) + k + 1))
      = cE * cB + cE * (cE + 1) / 2 := by
    rw [Finset.sum_add_distrib, Finset.sum_add_distrib, Finset.sum_const, Finset.sum_const,
      sum_range_cast_q]
    simp only [Finset.card_range, nsmul_eq_mul, mul_one]
    ring
  rw [hsum]
  field_simp
  ring

lemma map_zip_append_getD {L : Nat} : ∀ (rows : List (List ℚ)) (vals : List ℚ),
    rows.length = vals.length → (∀ r ∈ rows, r.length = L) →
    (((rows.zip vals).map (fun rv => rv.1 ++ [rv.2])).map (fun r => r.getD L default)) = vals := by
  intro rows
  induction rows with
  | nil =>
    intro vals hlen _
    cases vals with
    | nil => rfl
    | cons v vs => cases hlen
  | cons r rs ih =>
    intro vals hlen hw
    cases vals with
    | nil => cases hlen
    | cons v vs =>
      simp only [List.zip_cons_cons, List.map_cons]
      have hr : r.length = L := hw r (List.mem_cons_self r rs)
      rw [← hr, getD_append_self_length r v, hr]
      rw [ih vs (by simpa using hlen) (fun q hq => hw q (List.mem_cons_of_mem r hq))]

/-- C6: `_rank_predictions` appends the column `rank_<target>` on the right,
holding the pandas average ranks of the target column, ascending iff
`greater_is_better` is false; on a tie-free column the smallest value ranks
1 when `greater_is_better` is false and the largest ranks 1 when it is
true, and in general tied values receive the average of the ordinal ranks
occupied by their tie group. -/
theorem C6_rank_predictions (t : Table ℚ) (target : String) (gib : Bool)
    (hw : wellFormed t) (htm : target ∈ t.columns)
    (hfresh : ("rank_" ++ target) ∉ t.columns) :
    (rankPredictions t target gib).columns = t.columns ++ ["rank_" ++ target] ∧
    columnValues (rankPredictions t target gib) ("rank_" ++ target)
      = pandasRank (columnValues t target) (!gib) ∧
    (gib = false → ∀ (i : Nat) (x : ℚ), (columnValues t target).Nodup →
      (columnValues t target).get? i = some x →
      (∀ y ∈ columnValues t target, x ≤ y) →
      (pandasRank (columnValues t target) (!gib)).get? i = some 1) ∧
    (gib = true → ∀ (i : Nat) (x : ℚ), (columnValues t target).Nodup →
      (columnValues t target).get? i = some x →
      (∀ y ∈ columnValues t target, y ≤ x) →
      (pandasRank (columnValues t target) (!gib)).get? i = some 1) ∧
    (∀ (asc : Bool) (i : Nat) (x : ℚ), (columnValues t target).get? i = some x →
      (pandasRank (columnValues t target) asc).get? i
        = some ((∑ k in Finset.range
              ((columnValues t target).countP (fun y => decide (y = x))),
            (((columnValues t target).countP
                (fun y => if asc then decide (y < x) else decide (x < y)) : ℚ) + k + 1))
          / ((columnValues t target).countP (fun y => decide (y = x)) : ℚ))) := by
  refine ⟨rfl, ?_, ?_, ?_, ?_⟩
  · show columnValues
      (⟨t.columns ++ ["rank_" ++ target],
        (t.rows.zip (pandasRank (columnValues t target) (!gib))).map
          (fun rv => rv.1 ++ [rv.2])⟩ : Table ℚ)
      ("rank_" ++ target) = pandasRank (columnValues t target) (!gib)
    unfold columnValues
    rw [colIdx_append_self hfresh]
    exact map_zip_append_getD t.rows (pandasRank (columnValues t target) (!gib))
      (by rw [pandasRank_length, columnValues_length htm]) hw
  · intro hgib i x hnd hx hmin
    rw [hgib]
    exact pandasRank_min_rank_one hnd hx hmin
  · intro hgib i x hnd hx hmax
    rw [hgib]
    exact pandasRank_max_rank_one hnd hx hmax
  · intro asc i x hx
    exact pandasRank_tie_average asc hx

/-- The running example for C6: input space `(b, a)` rows `(1,1)` and
`(2,1)` with target column `b`. -/
def rankExampleTable : Table ℚ := ⟨["b", "a"], [[1, 1], [2, 1]]⟩

theorem C6_rank_predictions_witness :
    (rankPredictions rankExampleTable "b" false).columns
      = rankExampleTable.columns ++ ["rank_" ++ "b"] ∧
    columnValues (rankPredictions rankExampleTable "b" false) ("rank_" ++ "b")
      = pandasRank (columnValues rankExampleTable "b") (!false) ∧
    pandasRank (columnValues rankExampleTable "b") (!false) = [1, 2] := by
  have hwf : wellFormed rankExampleTable := by
    show ∀ r ∈ rankExampleTable.rows, r.length = rankExampleTable.columns.length
    decide
  refine ⟨(C6_rank_predictions rankExampleTable "b" false hwf (by decide) (by decide)).1,
    (C6_rank_predictions rankExampleTable "b" false hwf (by decide) (by decide)).2.1, ?_⟩
  show pandasRank [1, 2] true = [1, 2]
  unfold pandasRank
  norm_num [List.countP, List.countP.go]

/-! ## Supporting lemmas: the store of tables -/

def emptyTable : Table ℚ := ⟨[], []⟩

lemma readRef_writeRef_eq {s : Store} {j : Nat} (t : Table ℚ) (h : j < s.length) :
    readRef (writeRef s j t) j = t := by
  show ((s.set j t).get? j).getD emptyTable = t
  rw [List.get?_set_eq_of_lt t h]
  rfl

lemma readRef_writeRef_ne {s : Store} {i j : Nat} (t : Table ℚ) (h : j ≠ i) :
    readRef (writeRef s j t) i = readRef s i := by
  show ((s.set j t).get? i).getD emptyTable = (s.get? i).getD emptyTable
  rw [List.get?_set_ne t s h]

lemma readRef_append_lt {s : Store} {i : Nat} (t : Table ℚ) (h : i < s.length) :
    readRef (s ++ [t]) i = readRef s i := by
  show ((s ++ [t]).get? i).getD emptyTable = (s.get? i).getD emptyTable
  rw [List.get?_append h]

lemma readRef_append_self (s : Store) (t : Table ℚ) : readRef (s ++ [t]) s.length = t := by
  show ((s ++ [t]).get? s.length).getD emptyTable = t
  rw [List.get?_append_right (le_refl _)]
  simp

lemma writeRef_length (s : Store) (j : Nat) (t : Table ℚ) :
    (writeRef s j t).length = s.length := List.length_set s j t

/-- What one loop iteration does to the store: it grows it by the freshly
allocated copy, leaves every existing reference untouched, and the new
reference holds the ranked per-target prediction table. -/
lemma perTargetStep_spec (predictFn : Table ℚ → List ℚ) (tv : String) (gib : Bool)
    (s : Store) (inputRef : Nat) (hlt : inputRef < s.length) :
    (perTargetStep predictFn tv gib s inputRef).1.length = s.length + 1 ∧
    (perTargetStep predictFn tv gib s inputRef).2 = s.length ∧
    (∀ i, i < s.length →
      readRef (perTargetStep predictFn tv gib s inputRef).1 i = readRef s i) ∧
    readRef (perTargetStep predictFn tv gib s inputRef).1
        (perTargetStep predictFn tv gib s inputRef).2
      = rankPredictions
          (setColumnList (readRef s inputRef) tv (predictFn (readRef s inputRef))) tv gib := by
  have hlen1 : (s ++ [readRef s inputRef]).length = s.length + 1 := by simp
  have hpr1 : s.length < (s ++ [readRef s inputRef]).length := by simp
  have hread1 : readRef (s ++ [readRef s inputRef]) s.length = readRef s inputRef :=
    readRef_append_self s (readRef s inputRef)
  refine ⟨?_, rfl, ?_, ?_⟩
  · show ((writeRef (writeRef (s ++ [readRef s inputRef]) s.length _) s.length _)).length
      = s.length + 1
    rw [writeRef_length, writeRef_length, hlen1]
  · intro i hi
    have hne : s.length ≠ i := by omega
    show readRef (writeRef (writeRef (s ++ [readRef s inputRef]) s.length _) s.length _) i
      = readRef s i
    rw [readRef_writeRef_ne _ hne, readRef_writeRef_ne _ hne, readRef_append_lt _ hi]
  · show readRef (writeRef (writeRef (s ++ [readRef s inputRef]) s.length _) s.length _)
        s.length = _
    rw [readRef_writeRef_eq _ (by rw [writeRef_length, hlen1]; omega)]
    rw [readRef_writeRef_eq _ (by rw [hlen1]; omega), hread1]

/-! ## Supporting lemmas: shape of a per-target prediction table -/

lemma map_take_zip_append_ge {L : Nat} : ∀ (rows : List (List ℚ)) (vals : List ℚ),
    rows.length = vals.length → (∀ r ∈ rows, L ≤ r.length) →
    (((rows.zip vals).map (fun rv => rv.1 ++ [rv.2])).map (fun r => r.take L))
      = rows.map (fun r => r.take L) := by
  intro rows
  induction rows with
  | nil => intro vals _ _; rfl
  | cons r rs ih =>
    intro vals hlen hw
    cases vals with
    | nil => cases hlen
    | cons v vs =>
      simp only [List.zip_cons_cons, List.map_cons]
      rw [List.take_append_of_le_length (hw r (List.mem_cons_self r rs))]
      rw [ih vs (by simpa using hlen) (fun q hq => hw q (List.mem_cons_of_mem r hq))]

lemma setColumnList_fresh_columns {t : Table ℚ} {tv : String} (y : List ℚ)
    (htv : tv ∉ t.columns) : (setColumnList t tv y).columns = t.columns ++ [tv] := by
  unfold setColumnList
  rw [colIdx_eq_none_iff.2 htv]

lemma setColumnList_fresh_rows {t : Table ℚ} {tv : String} (y : List ℚ)
    (htv : tv ∉ t.columns) :
    (setColumnList t tv y).rows = (t.rows.zip y).map (fun rv => rv.1 ++ [rv.2]) := by
  unfold setColumnList
  rw [colIdx_eq_none_iff.2 htv]

/-- The per-target table built by one loop iteration: columns are the input
columns plus `<target>` plus `rank_<target>`, and stripping the two added
columns recovers exactly the input rows. -/
lemma perTarget_table_shape (input : Table ℚ) (tv : String) (gib : Bool) (y : List ℚ)
    (hw : wellFormed input) (htv : tv ∉ input.columns)
    (hy : y.length = input.rows.length) :
    (rankPredictions (setColumnList input tv y) tv gib).columns
      = input.columns ++ [tv, "rank_" ++ tv] ∧
    (rankPredictions (setColumnList input tv y) tv gib).rows.map
        (fun r => r.take input.columns.length)
      = input.rows := by
  set t1 := setColumnList input tv y with ht1
  have hc1 : t1.columns = input.columns ++ [tv] := setColumnList_fresh_columns y htv
  have hr1 : t1.rows = (input.rows.zip y).map (fun rv => rv.1 ++ [rv.2]) :=
    setColumnList_fresh_rows y htv
  have hr1len : t1.rows.length = input.rows.length := by
    rw [hr1, List.length_map, List.length_zip, hy, Nat.min_self]
  have htvmem : tv ∈ t1.columns := by
    rw [hc1]
    simp
  constructor
  · show t1.columns ++ ["rank_" ++ tv] = input.columns ++ [tv, "rank_" ++ tv]
    rw [hc1, List.append_assoc]
    rfl
  · show ((t1.rows.zip (pandasRank (columnValues t1 tv) (!gib))).map
        (fun rv => rv.1 ++ [rv.2])).map (fun r => r.take input.columns.length)
      = input.rows
    rw [map_take_zip_append_ge t1.rows (pandasRank (columnValues t1 tv) (!gib))
      (by rw [pandasRank_length, columnValues_length htvmem])
      (by
        intro r hr
        rw [hr1, List.mem_map] at hr
        obtain ⟨rv, hrv, rfl⟩ := hr
        have : rv.1 ∈ input.rows := (List.of_mem_zip hrv).1
        rw [List.length_append, hw rv.1 this]
        omega)]
    rw [hr1, List.map_map]
    have hpt : ∀ rv ∈ input.rows.zip y,
        ((fun r => r.take input.columns.length) ∘ fun rv => rv.1 ++ [rv.2]) rv = rv.1 := by
      intro rv hrv
      have hmem : rv.1 ∈ input.rows := (List.of_mem_zip hrv).1
      show (rv.1 ++ [rv.2]).take input.columns.length = rv.1
      rw [← hw rv.1 hmem]
      exact List.take_left rv.1 [rv.2]
    rw [List.map_congr_left hpt]
    exact List.map_fst_zip input.rows y (by omega)

/-- C10: the prediction loop never mutates the table at `inputRef` (each
iteration works on a deep copy at a fresh reference), so every target's
predictions are computed over the identical input-space rows, and each
per-target table's columns are exactly the input-space columns plus
`<target>` and `rank_<target>` (its rows extend the input rows).  Stated
over the explicit store: the final store still holds the original table at
`inputRef` (and at every pre-existing reference), and for the `j`-th
estimator entry the `j`-th produced reference holds a table with the added
columns, whose rows restricted to the input columns are exactly the input
rows.  Both added column names must be fresh in the input table: a target
name colliding with an input column would be overwritten rather than
appended, and an already-present `rank_<target>` column makes pandas
`DataFrame.insert` (predict.py line 259) raise `ValueError` and abort the
run, so no per-target table exists in either case. -/
theorem C10_loop_preserves_input (entries : List (String × Bool × (Table ℚ → List ℚ))) :
    ∀ (s : Store) (inputRef : Nat), inputRef < s.length →
    wellFormed (readRef s inputRef) →
    (∀ e ∈ entries, e.1 ∉ (readRef s inputRef).columns) →
    (∀ e ∈ entries, ("rank_" ++ e.1) ∉ (readRef s inputRef).columns) →
    (∀ e ∈ entries,
      (e.2.2 (readRef s inputRef)).length = (readRef s inputRef).rows.length) →
    (∀ i, i < s.length →
      readRef (runPredictionLoop entries s inputRef).1 i = readRef s i) ∧
    (runPredictionLoop entries s inputRef).1.length = s.length + entries.length ∧
    (runPredictionLoop entries s inputRef).2.length = entries.length ∧
    (∀ (j : Nat) (e : String × Bool × (Table ℚ → List ℚ)), entries.get? j = some e →
      ∃ pr, (runPredictionLoop entries s inputRef).2.get? j = some pr ∧
        (readRef (runPredictionLoop entries s inputRef).1 pr).columns
          = (readRef s inputRef).columns ++ [e.1, "rank_" ++ e.1] ∧
        (readRef (runPredictionLoop entries s inputRef).1 pr).rows.map
            (fun r => r.take (readRef s inputRef).columns.length)
          = (readRef s inputRef).rows) := by
  induction entries with
  | nil =>
    intro s inputRef _ _ _ _ _
    exact ⟨fun i _ => rfl, by simp [runPredictionLoop], rfl, fun j e hj => by cases hj⟩
  | cons e rest ih =>
    intro s inputRef hlt hw hcols hrks hlens
    obtain ⟨hslen, hpr, hpres, hnew⟩ :=
      perTargetStep_spec e.2.2 e.1 e.2.1 s inputRef hlt
    set st := perTargetStep e.2.2 e.1 e.2.1 s inputRef with hst
    have hin1 : readRef st.1 inputRef = readRef s inputRef := hpres inputRef hlt
    have hlt1 : inputRef < st.1.length := by omega
    have hshape := perTarget_table_shape (readRef s inputRef) e.1 e.2.1
      (e.2.2 (readRef s inputRef)) hw (hcols e (List.mem_cons_self e rest))
      (hlens e (List.mem_cons_self e rest))
    obtain ⟨ihpres, ihlen, ihprs, ihtabs⟩ := ih st.1 inputRef hlt1
      (by rw [hin1]; exact hw)
      (by rw [hin1]; exact fun q hq => hcols q (List.mem_cons_of_mem e hq))
      (by rw [hin1]; exact fun q hq => hrks q (List.mem_cons_of_mem e hq))
      (by rw [hin1]; exact fun q hq => hlens q (List.mem_cons_of_mem e hq))
    have hloop : runPredictionLoop (e :: rest) s inputRef
        = ((runPredictionLoop rest st.1 inputRef).1,
           st.2 :: (runPredictionLoop rest st.1 inputRef).2) := rfl
    refine ⟨?_, ?_, ?_, ?_⟩
    · intro i hi
      rw [hloop]
      rw [ihpres i (by omega)]
      exact hpres i hi
    · rw [hloop]
      show (runPredictionLoop rest st.1 inputRef).1.length = s.length + (rest.length + 1)
      rw [ihlen, hslen]
      omega
    · rw [hloop]
      show ((runPredictionLoop rest st.1 inputRef).2.length + 1) = rest.length + 1
      rw [ihprs]
    · intro j q hj
      cases j with
      | zero =>
        have hq : e = q := Option.some.inj hj
        subst hq
        refine ⟨st.2, rfl, ?_, ?_⟩
        · rw [hloop]
          show (readRef (runPredictionLoop rest st.1 inputRef).1 st.2).columns = _
          rw [hpr, ihpres s.length (by omega), ← hpr, hnew]
          exact hshape.1
        · rw [hloop]
          show (readRef (runPredictionLoop rest st.1 inputRef).1 st.2).rows.map _ = _
          rw [hpr, ihpres s.length (by omega), ← hpr, hnew]
          exact hshape.2
      | succ j2 =>
        have hj2 : rest.get? j2 = some q := hj
        obtain ⟨pr, hprj, hc, hr⟩ := ihtabs j2 q hj2
        refine ⟨pr, ?_, ?_, ?_⟩
        · rw [hloop]
          exact hprj
        · rw [hloop]
          show (readRef (runPredictionLoop rest st.1 inputRef).1 pr).columns = _
          rw [hc, hin1]
        · rw [hloop]
          show (readRef (runPredictionLoop rest st.1 inputRef).1 pr).rows.map _ = _
          rw [hin1] at hr
          exact hr

theorem C10_loop_preserves_input_witness :
    readRef (runPredictionLoop [("time", false, fun t => t.rows.map (fun _ => (3 : ℚ)))]
        [(⟨["b"], [[1], [2]]⟩ : Table ℚ)] 0).1 0 = ⟨["b"], [[1], [2]]⟩ ∧
    (runPredictionLoop [("time", false, fun t => t.rows.map (fun _ => (3 : ℚ)))]
        [(⟨["b"], [[1], [2]]⟩ : Table ℚ)] 0).2.length = 1 := by
  have h := C10_loop_preserves_input
    [("time", false, fun t => t.rows.map (fun _ => (3 : ℚ)))]
    [(⟨["b"], [[1], [2]]⟩ : Table ℚ)] 0 (by decide)
    (by
      show ∀ r ∈ (readRef [(⟨["b"], [[1], [2]]⟩ : Table ℚ)] 0).rows,
        r.length = (readRef [(⟨["b"], [[1], [2]]⟩ : Table ℚ)] 0).columns.length
      decide)
    (by decide)
    (by decide)
    (by
      intro q hq
      rcases List.mem_cons.1 hq with rfl | hq2
      · rfl
      · cases hq2)
  exact ⟨h.1 0 (by decide), h.2.2.1⟩

end Arise
